import Mathlib

/-
Shallow embedding of the scheduling-app core:
  src/src/models/schedule.py, src/src/models/assignment.py,
  src/src/models/work_schedule.py, src/src/core/scheduler.py.

Time model: every datetime is an integer number of minutes since a global
epoch midnight; a time-of-day is minutes since midnight (0 .. 1439).
Then `dt.date()` is `t / 1440` (Int division with positive divisor is the
floor, matching Python), `dt.hour` is `t % 1440 / 60`,
`datetime.combine(d.date(), tod)` is `d / 1440 * 1440 + tod`, and
`timedelta.days` of `a - b` is `(a - b) / 1440`.  Durations that Python
derives via `total_seconds() / 60` are exact integer minutes here.
Python floats (scores, efficiency) are modelled as exact rationals.
-/

namespace SchedApp

/-! ### models/schedule.py -/

inductive BlockType where
  | study
  | break_
  | class_
  | work
  | personal
  | buffer
deriving DecidableEq, Repr

structure TimeBlock where
  start_time : Int
  end_time : Int
  block_type : BlockType
  title : String
  description : Option String := none
  assignment_id : Option Int := none
  course_id : Option Int := none
  is_fixed : Bool := false
  priority : Int := 1
  tags : List String := []
deriving DecidableEq, Repr

namespace TimeBlock

def duration_minutes (b : TimeBlock) : Int :=
  b.end_time - b.start_time

def is_study_block (b : TimeBlock) : Bool :=
  b.block_type == BlockType.study

def overlaps_with (b other : TimeBlock) : Bool :=
  decide (b.start_time < other.end_time) && decide (b.end_time > other.start_time)

end TimeBlock

structure Schedule where
  date : Int
  time_blocks : List TimeBlock := []
  total_study_time : Int := 0
  total_break_time : Int := 0
  efficiency_score : ℚ := 0
deriving Repr

namespace Schedule

def _can_add_block (s : Schedule) (block : TimeBlock) : Bool :=
  s.time_blocks.all fun existing_block => !(block.overlaps_with existing_block)

def _update_metrics (s : Schedule) : Schedule :=
  let total_study_time :=
    ((s.time_blocks.filter fun b => b.block_type == BlockType.study).map
      TimeBlock.duration_minutes).sum
  let total_break_time :=
    ((s.time_blocks.filter fun b => b.block_type == BlockType.break_).map
      TimeBlock.duration_minutes).sum
  let total_time := (s.time_blocks.map TimeBlock.duration_minutes).sum
  { s with
    total_study_time := total_study_time
    total_break_time := total_break_time
    efficiency_score :=
      if total_time > 0 then (total_study_time : ℚ) / (total_time : ℚ) else 0 }

def add_block (s : Schedule) (block : TimeBlock) : Schedule × Bool :=
  if s._can_add_block block then
    (_update_metrics { s with time_blocks := s.time_blocks ++ [block] }, true)
  else
    (s, false)

def remove_block (s : Schedule) (block_id : Int) : Schedule × Bool :=
  if 0 ≤ block_id ∧ block_id < s.time_blocks.length then
    (_update_metrics { s with time_blocks := s.time_blocks.eraseIdx block_id.toNat }, true)
  else
    (s, false)

def slots_loop (duration_minutes end_dt : Int) : Int → List TimeBlock → List (Int × Int)
  | current_time, [] =>
      if end_dt - current_time ≥ duration_minutes then [(current_time, end_dt)] else []
  | current_time, block :: rest =>
      (if block.start_time - current_time ≥ duration_minutes then
        [(current_time, block.start_time)]
      else []) ++ slots_loop duration_minutes end_dt block.end_time rest

def get_available_slots (s : Schedule) (duration_minutes : Int)
    (start_time : Int := 540) (end_time : Int := 1320) : List (Int × Int) :=
  let start_dt := s.date / 1440 * 1440 + start_time
  let end_dt := s.date / 1440 * 1440 + end_time
  let sorted_blocks :=
    s.time_blocks.mergeSort fun a b => decide (a.start_time ≤ b.start_time)
  slots_loop duration_minutes end_dt start_dt sorted_blocks

def get_blocks_by_type (s : Schedule) (block_type : BlockType) : List TimeBlock :=
  s.time_blocks.filter fun block => block.block_type == block_type

def get_study_blocks (s : Schedule) : List TimeBlock :=
  s.get_blocks_by_type BlockType.study

end Schedule

/-! ### models/assignment.py -/

inductive AssignmentType where
  | homework
  | quiz
  | exam
  | project
  | discussion
  | essay
  | lab_report
  | other
deriving DecidableEq, Repr

def AssignmentType.val : AssignmentType → String
  | .homework => "homework"
  | .quiz => "quiz"
  | .exam => "exam"
  | .project => "project"
  | .discussion => "discussion"
  | .essay => "essay"
  | .lab_report => "lab_report"
  | .other => "other"

inductive Priority where
  | low
  | medium
  | high
  | urgent
deriving DecidableEq, Repr

def Priority.val : Priority → String
  | .low => "low"
  | .medium => "medium"
  | .high => "high"
  | .urgent => "urgent"

structure Assignment where
  id : Int
  name : String
  course_id : Int
  course_name : String
  due_date : Option Int := none
  assignment_type : AssignmentType := .homework
  priority : Priority := .medium
  estimated_duration : Int := 90
  difficulty : Int := 3
  requires_preparation : Bool := false
  preparation_time : Int := 0
  is_completed : Bool := false
deriving DecidableEq, Repr

namespace Assignment

def total_time_needed (a : Assignment) : Int :=
  a.estimated_duration + a.preparation_time

/-- `days_until_due` reads `datetime.now()`; the current instant is passed
explicitly as `now`. -/
def days_until_due (a : Assignment) (now : Int) : Option Int :=
  match a.due_date with
  | none => none
  | some due => some (max 0 ((due - now) / 1440))

def priority_scores : Priority → ℚ
  | .low => 1.0
  | .medium => 2.0
  | .high => 3.0
  | .urgent => 4.0

def urgency_score (a : Assignment) (now : Int) : ℚ :=
  match a.due_date with
  | none => 0.0
  | some _ =>
    match a.days_until_due now with
    | none => 0.0
    | some days_left =>
      if days_left = 0 then 10.0
      else
        let base_score := priority_scores a.priority
        let time_mult : ℚ :=
          if days_left ≤ 3 then 3.0
          else if days_left ≤ 7 then 2.0
          else if days_left ≤ 14 then 1.5
          else 1.0
        base_score * time_mult

end Assignment

/-! ### models/work_schedule.py -/

inductive ShiftStatus where
  | scheduled
  | in_progress
  | completed
  | cancelled
deriving DecidableEq, Repr

structure WorkShift where
  id : String
  start_time : Int
  end_time : Int
  role : String
  location : Option String := none
  status : ShiftStatus := .scheduled
deriving DecidableEq, Repr

def WorkShift.date (w : WorkShift) : Int :=
  w.start_time

/-! ### core/scheduler.py -/

structure SchedulingConstraints where
  start_time : Int := 540
  end_time : Int := 1320
  max_study_session : Int := 120
  min_study_session : Int := 30
  break_duration : Int := 15
  buffer_time : Int := 30
  preferred_study_hours : Int × Int := (9, 22)
deriving DecidableEq, Repr

namespace SmartScheduler

def _priority_order : Priority → Int
  | .low => 1
  | .medium => 2
  | .high => 3
  | .urgent => 4

/-- The boolean comparison Python's stable sort applies to the key tuples
`(-urgency_score, -priority_order)`:
`key a ≤ key b` in lexicographic tuple order. -/
def _sort_key_le (now : Int) (a b : Assignment) : Bool :=
  decide (b.urgency_score now < a.urgency_score now) ||
    (decide (a.urgency_score now = b.urgency_score now) &&
      decide (_priority_order b.priority ≤ _priority_order a.priority))

def _sort_assignments_by_priority (now : Int) (assignments : List Assignment) :
    List Assignment :=
  assignments.mergeSort (_sort_key_le now)

def _calculate_time_preference_score (start_time : Int) : ℚ :=
  let hour := start_time % 1440 / 60
  if 9 ≤ hour ∧ hour < 12 then 1.0
  else if 12 ≤ hour ∧ hour < 17 then 0.8
  else if 17 ≤ hour ∧ hour < 22 then 0.6
  else 0.2

/-- Score of one candidate slot in `_schedule_single_assignment`
(scheduler.py lines 164-175). -/
def _total_slot_score (time_needed : Int) (slot : Int × Int) : ℚ :=
  let slot_duration : ℚ := ((slot.2 - slot.1 : Int) : ℚ)
  let fit_score : ℚ := 1.0 - |slot_duration - (time_needed : ℚ)| / (time_needed : ℚ)
  let time_score := _calculate_time_preference_score slot.1
  fit_score * 0.6 + time_score * 0.4

/-- The best-slot search loop of `_schedule_single_assignment`
(scheduler.py lines 160-179): running best slot and running best score,
initialised to `none` and `-1`. -/
def _find_best_slot (time_needed : Int) :
    List (Int × Int) → Option (Int × Int) → ℚ → Option (Int × Int) × ℚ
  | [], best_slot, best_score => (best_slot, best_score)
  | slot :: rest, best_slot, best_score =>
    if slot.2 - slot.1 ≥ time_needed then
      if _total_slot_score time_needed slot > best_score then
        _find_best_slot time_needed rest (some slot) (_total_slot_score time_needed slot)
      else
        _find_best_slot time_needed rest best_slot best_score
    else
      _find_best_slot time_needed rest best_slot best_score

/-- The study block built at scheduler.py lines 185-194. -/
def _study_block (assignment : Assignment) (start_time : Int) : TimeBlock :=
  { start_time := start_time
    end_time := start_time + assignment.total_time_needed
    block_type := BlockType.study
    title := "Study: " ++ assignment.name
    description := some ("Course: " ++ assignment.course_name)
    assignment_id := some assignment.id
    course_id := some assignment.course_id
    tags := [assignment.assignment_type.val, assignment.priority.val] }

/-- `_schedule_single_assignment` mutates the schedule and the free-slot
list in place; here both are threaded explicitly. -/
def _schedule_single_assignment (schedule : Schedule) (assignment : Assignment)
    (available_slots : List (Int × Int)) : Schedule × List (Int × Int) :=
  let time_needed := assignment.total_time_needed
  match (_find_best_slot time_needed available_slots none (-1)).1 with
  | none => (schedule, available_slots)
  | some best_slot =>
    let study_block := _study_block assignment best_slot.1
    let r := schedule.add_block study_block
    if r.2 then (r.1, available_slots.erase best_slot)
    else (r.1, available_slots)

def _can_schedule_assignment (assignment : Assignment) (date : Int) : Bool :=
  if assignment.is_completed then false
  else if (match assignment.due_date with
           | some due => decide (due / 1440 < date / 1440)
           | none => false) then false
  else if (match assignment.due_date with
           | some due => decide ((due - date) / 1440 < 0)
           | none => false) then false
  else true

def _schedule_assignments_for_day (c : SchedulingConstraints) (schedule : Schedule)
    (assignments : List Assignment) (date : Int) : Schedule :=
  let available_assignments := assignments.filter fun a => !a.is_completed
  if available_assignments.isEmpty then schedule
  else
    let available_slots :=
      schedule.get_available_slots c.min_study_session c.start_time c.end_time
    if available_slots.isEmpty then schedule
    else
      (available_assignments.foldl
        (fun (acc : Schedule × List (Int × Int)) assignment =>
          if _can_schedule_assignment assignment date then
            _schedule_single_assignment acc.1 assignment acc.2
          else acc)
        (schedule, available_slots)).1

/-- The work block built at scheduler.py lines 102-108. -/
def _work_block (work_shift : WorkShift) : TimeBlock :=
  { start_time := work_shift.start_time
    end_time := work_shift.end_time
    block_type := BlockType.work
    title := "Work - " ++ work_shift.role
    is_fixed := true }

def _add_fixed_blocks (schedule : Schedule) (class_schedule : List TimeBlock)
    (work_shifts : List WorkShift) (date : Int) : Schedule :=
  let s1 := class_schedule.foldl
    (fun s class_block =>
      if class_block.start_time / 1440 = date / 1440 then (s.add_block class_block).1
      else s)
    schedule
  work_shifts.foldl
    (fun s work_shift =>
      if work_shift.date / 1440 = date / 1440 then (s.add_block (_work_block work_shift)).1
      else s)
    s1

/-- The break block built at scheduler.py lines 243-249. -/
def _break_block (c : SchedulingConstraints) (break_start : Int) : TimeBlock :=
  { start_time := break_start
    end_time := break_start + c.break_duration
    block_type := BlockType.break_
    title := "Break"
    description := some "Study break" }

def _add_breaks_and_optimize (c : SchedulingConstraints) (schedule : Schedule) :
    Schedule :=
  let study_blocks := schedule.get_study_blocks
  if study_blocks.length < 2 then schedule
  else
    let sorted_blocks :=
      study_blocks.mergeSort fun a b => decide (a.start_time ≤ b.start_time)
    (sorted_blocks.zip sorted_blocks.tail).foldl
      (fun s pair =>
        if pair.2.start_time - pair.1.end_time ≥ c.break_duration then
          (s.add_block (_break_block c pair.1.end_time)).1
        else s)
      schedule

def create_schedule (c : SchedulingConstraints) (now : Int)
    (assignments : List Assignment) (work_shifts : List WorkShift)
    (class_schedule : List TimeBlock) (start_date : Int) (days_ahead : Nat) :
    List Schedule :=
  let sorted_assignments := _sort_assignments_by_priority now assignments
  ((List.range days_ahead).foldl
    (fun (acc : List Schedule × Int) _ =>
      let schedule : Schedule := { date := acc.2 }
      let s1 := _add_fixed_blocks schedule class_schedule work_shifts acc.2
      let s2 := _schedule_assignments_for_day c s1 sorted_assignments acc.2
      let s3 := _add_breaks_and_optimize c s2
      (acc.1 ++ [s3], acc.2 + 1440))
    ([], start_date)).1

end SmartScheduler

/-! ### Shared definitions and helper lemmas for the verification -/

/-- The DailySchedule invariant: no two contained blocks overlap. -/
def NoOverlap (s : Schedule) : Prop :=
  s.time_blocks.Pairwise fun a b => a.overlaps_with b = false

theorem overlaps_with_comm (a b : TimeBlock) :
    a.overlaps_with b = b.overlaps_with a := by
  simp only [TimeBlock.overlaps_with, gt_iff_lt]
  rw [Bool.and_comm]

theorem overlaps_with_iff (a b : TimeBlock) :
    a.overlaps_with b = true ↔
      a.start_time < b.end_time ∧ b.start_time < a.end_time := by
  simp [TimeBlock.overlaps_with]

theorem update_metrics_time_blocks (s : Schedule) :
    s._update_metrics.time_blocks = s.time_blocks := rfl

theorem add_block_time_blocks (s : Schedule) (b : TimeBlock) :
    (s.add_block b).1.time_blocks = s.time_blocks ∨
      (s.add_block b).1.time_blocks = s.time_blocks ++ [b] := by
  unfold Schedule.add_block
  by_cases h : s._can_add_block b = true
  · rw [if_pos h]; right; rfl
  · rw [if_neg h]; left; rfl

theorem can_add_block_iff (s : Schedule) (b : TimeBlock) :
    s._can_add_block b = true ↔
      ∀ e ∈ s.time_blocks, b.overlaps_with e = false := by
  simp [Schedule._can_add_block]

theorem add_block_preserves_noOverlap (s : Schedule) (b : TimeBlock)
    (h : NoOverlap s) : NoOverlap (s.add_block b).1 := by
  unfold Schedule.add_block
  by_cases hc : s._can_add_block b = true
  · rw [if_pos hc]
    have hall := (can_add_block_iff s b).1 hc
    unfold NoOverlap at h ⊢
    rw [update_metrics_time_blocks]
    rw [List.pairwise_append]
    refine ⟨h, List.pairwise_singleton _ _, ?_⟩
    intro e he b' hb'
    rw [List.mem_singleton] at hb'
    subst hb'
    rw [overlaps_with_comm]
    exact hall e he
  · rw [if_neg hc]; exact h

theorem foldl_preserves {α β : Type} (P : β → Prop) (f : β → α → β)
    (hf : ∀ acc x, P acc → P (f acc x)) :
    ∀ (l : List α) (init : β), P init → P (l.foldl f init) := by
  intro l
  induction l with
  | nil => intro init h; exact h
  | cons x xs ih => intro init h; exact ih (f init x) (hf init x h)

theorem schedule_single_preserves_noOverlap (s : Schedule) (a : Assignment)
    (slots : List (Int × Int)) (h : NoOverlap s) :
    NoOverlap (SmartScheduler._schedule_single_assignment s a slots).1 := by
  unfold SmartScheduler._schedule_single_assignment
  simp only []
  split
  · exact h
  · split
    · exact add_block_preserves_noOverlap _ _ h
    · exact add_block_preserves_noOverlap _ _ h

theorem add_fixed_blocks_preserves_noOverlap (s : Schedule)
    (cls : List TimeBlock) (shifts : List WorkShift) (date : Int)
    (h : NoOverlap s) :
    NoOverlap (SmartScheduler._add_fixed_blocks s cls shifts date) := by
  unfold SmartScheduler._add_fixed_blocks
  apply foldl_preserves NoOverlap _ _ shifts
  · apply foldl_preserves NoOverlap _ _ cls _ h
    intro acc x hacc
    split
    · exact add_block_preserves_noOverlap _ _ hacc
    · exact hacc
  · intro acc x hacc
    split
    · exact add_block_preserves_noOverlap _ _ hacc
    · exact hacc

theorem schedule_day_preserves_noOverlap (c : SchedulingConstraints)
    (s : Schedule) (assignments : List Assignment) (date : Int)
    (h : NoOverlap s) :
    NoOverlap (SmartScheduler._schedule_assignments_for_day c s assignments date) := by
  unfold SmartScheduler._schedule_assignments_for_day
  by_cases h1 : (assignments.filter fun a => !a.is_completed).isEmpty
  · rw [if_pos h1]; exact h
  · rw [if_neg h1]
    by_cases h2 : (s.get_available_slots c.min_study_session c.start_time c.end_time).isEmpty
    · rw [if_pos h2]; exact h
    · rw [if_neg h2]
      have := foldl_preserves (fun acc : Schedule × List (Int × Int) => NoOverlap acc.1)
        (fun acc assignment =>
          if SmartScheduler._can_schedule_assignment assignment date then
            SmartScheduler._schedule_single_assignment acc.1 assignment acc.2
          else acc)
        ?_ (assignments.filter fun a => !a.is_completed)
        (s, s.get_available_slots c.min_study_session c.start_time c.end_time) h
      · exact this
      · intro acc x hacc
        dsimp only
        split
        · exact schedule_single_preserves_noOverlap _ _ _ hacc
        · exact hacc

theorem add_breaks_preserves_noOverlap (c : SchedulingConstraints) (s : Schedule)
    (h : NoOverlap s) :
    NoOverlap (SmartScheduler._add_breaks_and_optimize c s) := by
  unfold SmartScheduler._add_breaks_and_optimize
  by_cases h1 : s.get_study_blocks.length < 2
  · rw [if_pos h1]; exact h
  · rw [if_neg h1]
    apply foldl_preserves NoOverlap _ _ _ _ h
    intro acc pair hacc
    split
    · exact add_block_preserves_noOverlap _ _ hacc
    · exact hacc

theorem create_schedule_noOverlap (c : SchedulingConstraints) (now : Int)
    (assignments : List Assignment) (work_shifts : List WorkShift)
    (class_schedule : List TimeBlock) (start_date : Int) (days_ahead : Nat) :
    ∀ s ∈ SmartScheduler.create_schedule c now assignments work_shifts
        class_schedule start_date days_ahead, NoOverlap s := by
  unfold SmartScheduler.create_schedule
  have := foldl_preserves (fun acc : List Schedule × Int => ∀ s ∈ acc.1, NoOverlap s)
    (fun acc _ =>
      (acc.1 ++ [SmartScheduler._add_breaks_and_optimize c
        (SmartScheduler._schedule_assignments_for_day c
          (SmartScheduler._add_fixed_blocks { date := acc.2 } class_schedule
            work_shifts acc.2)
          (SmartScheduler._sort_assignments_by_priority now assignments) acc.2)],
        acc.2 + 1440))
    ?_ (List.range days_ahead) ([], start_date) (by intro s hs; simp at hs)
  · exact this
  · intro acc x hacc
    intro s hs
    rw [List.mem_append] at hs
    rcases hs with hs | hs
    · exact hacc s hs
    · rw [List.mem_singleton] at hs
      subst hs
      apply add_breaks_preserves_noOverlap
      apply schedule_day_preserves_noOverlap
      apply add_fixed_blocks_preserves_noOverlap
      exact List.Pairwise.nil

/-! ### Claim C1 -/

/-- **C1.** Every DailySchedule produced by a scheduling run contains no two
overlapping TimeBlocks (overlap = each block's start strictly before the
other's end; touching endpoints do not count, as `overlaps_with` states);
equivalently, `Schedule.add_block` preserves the pairwise-non-overlap
invariant for every block and every container state, and refuses exactly
those blocks that would overlap some contained block. -/
theorem C1_no_overlap_invariant :
    (∀ (c : SchedulingConstraints) (now : Int) (assignments : List Assignment)
        (work_shifts : List WorkShift) (class_schedule : List TimeBlock)
        (start_date : Int) (days_ahead : Nat),
      ∀ s ∈ SmartScheduler.create_schedule c now assignments work_shifts
          class_schedule start_date days_ahead, NoOverlap s) ∧
    (∀ (s : Schedule) (b : TimeBlock), NoOverlap s → NoOverlap (s.add_block b).1) ∧
    (∀ (s : Schedule) (b : TimeBlock),
      (s.add_block b).2 = false ↔ ∃ e ∈ s.time_blocks, b.overlaps_with e = true) ∧
    (∀ (a b : TimeBlock), a.overlaps_with b = true ↔
      a.start_time < b.end_time ∧ b.start_time < a.end_time) := by
  refine ⟨create_schedule_noOverlap, add_block_preserves_noOverlap, ?_, overlaps_with_iff⟩
  intro s b
  unfold Schedule.add_block
  by_cases hc : s._can_add_block b = true
  · rw [if_pos hc]
    have hall := (can_add_block_iff s b).1 hc
    simp only [Bool.true_eq_false, false_iff]
    rintro ⟨e, he, hov⟩
    rw [hall e he] at hov
    exact Bool.false_ne_true hov
  · rw [if_neg hc]
    constructor
    · intro _
      rw [can_add_block_iff] at hc
      push_neg at hc
      rcases hc with ⟨e, he, hne⟩
      exact ⟨e, he, by simpa using hne⟩
    · intro _; rfl

/-- Concrete witness for C1: a one-block schedule accepts a disjoint block
and keeps the invariant. -/
def wSched : Schedule :=
  { date := 0
    time_blocks := [{ start_time := 540, end_time := 600,
                      block_type := BlockType.class_, title := "Math" }] }

def wBlock : TimeBlock :=
  { start_time := 600, end_time := 660, block_type := BlockType.study,
    title := "Study" }

theorem C1_no_overlap_invariant_witness :
    NoOverlap wSched ∧ NoOverlap (wSched.add_block wBlock).1 := by
  have h : NoOverlap wSched := by
    unfold NoOverlap wSched
    decide
  exact ⟨h, C1_no_overlap_invariant.2.1 wSched wBlock h⟩

/-! ### Claim C5: metrics -/

/-- Defining formula: total study minutes of a block list. -/
def study_minutes (l : List TimeBlock) : Int :=
  ((l.filter fun b => b.block_type == BlockType.study).map TimeBlock.duration_minutes).sum

/-- Defining formula: total break minutes of a block list. -/
def break_minutes (l : List TimeBlock) : Int :=
  ((l.filter fun b => b.block_type == BlockType.break_).map TimeBlock.duration_minutes).sum

/-- Defining formula: total minutes across all blocks. -/
def total_minutes (l : List TimeBlock) : Int :=
  (l.map TimeBlock.duration_minutes).sum

/-- The cached metrics of a schedule equal their defining formulas. -/
def MetricsFresh (s : Schedule) : Prop :=
  s.total_study_time = study_minutes s.time_blocks ∧
  s.total_break_time = break_minutes s.time_blocks ∧
  s.efficiency_score =
    (if total_minutes s.time_blocks > 0 then
      (study_minutes s.time_blocks : ℚ) / (total_minutes s.time_blocks : ℚ)
    else 0)

theorem update_metrics_fresh (s : Schedule) : MetricsFresh s._update_metrics := by
  refine ⟨rfl, rfl, rfl⟩

theorem sum_durations_nonneg (l : List TimeBlock)
    (h : ∀ b ∈ l, 0 ≤ b.duration_minutes) : 0 ≤ (l.map TimeBlock.duration_minutes).sum := by
  apply List.sum_nonneg
  intro x hx
  rw [List.mem_map] at hx
  rcases hx with ⟨b, hb, rfl⟩
  exact h b hb

theorem sum_map_filter_le {α : Type} (p : α → Bool) (f : α → Int) :
    ∀ l : List α, (∀ b ∈ l, 0 ≤ f b) →
      ((l.filter p).map f).sum ≤ (l.map f).sum := by
  intro l
  induction l with
  | nil => intro _; simp
  | cons b t ih =>
    intro h
    have hb : 0 ≤ f b := h b (by simp)
    have ht := ih fun x hx => h x (by simp [hx])
    rw [List.filter_cons]
    by_cases hp : p b = true
    · rw [if_pos hp]
      simp only [List.map_cons, List.sum_cons]
      linarith
    · rw [if_neg hp]
      simp only [List.map_cons, List.sum_cons]
      linarith

theorem study_minutes_le_total (l : List TimeBlock)
    (h : ∀ b ∈ l, 0 ≤ b.duration_minutes) : study_minutes l ≤ total_minutes l :=
  sum_map_filter_le _ _ l h

theorem study_minutes_nonneg (l : List TimeBlock)
    (h : ∀ b ∈ l, 0 ≤ b.duration_minutes) : 0 ≤ study_minutes l := by
  apply sum_durations_nonneg
  intro b hb
  exact h b (List.mem_of_mem_filter hb)

theorem metricsFresh_eff_bounds (s : Schedule) (hm : MetricsFresh s)
    (h : ∀ b ∈ s.time_blocks, b.start_time < b.end_time) :
    0 ≤ s.efficiency_score ∧ s.efficiency_score ≤ 1 := by
  have hd : ∀ b ∈ s.time_blocks, 0 ≤ b.duration_minutes := by
    intro b hb
    have := h b hb
    simp only [TimeBlock.duration_minutes]
    omega
  rcases hm with ⟨-, -, heff⟩
  rw [heff]
  by_cases hpos : total_minutes s.time_blocks > 0
  · rw [if_pos hpos]
    have h1 : (0 : ℚ) ≤ (study_minutes s.time_blocks : ℚ) := by
      exact_mod_cast study_minutes_nonneg _ hd
    have h2 : (0 : ℚ) < (total_minutes s.time_blocks : ℚ) := by exact_mod_cast hpos
    have h3 : (study_minutes s.time_blocks : ℚ) ≤ (total_minutes s.time_blocks : ℚ) := by
      exact_mod_cast study_minutes_le_total _ hd
    exact ⟨div_nonneg h1 h2.le, (div_le_one h2).2 h3⟩
  · rw [if_neg hpos]
    norm_num

theorem add_block_success_shape (s : Schedule) (b : TimeBlock)
    (h : (s.add_block b).2 = true) :
    (s.add_block b).1 = Schedule._update_metrics { s with time_blocks := s.time_blocks ++ [b] } := by
  unfold Schedule.add_block at h ⊢
  by_cases hc : s._can_add_block b = true
  · rw [if_pos hc]
  · rw [if_neg hc] at h
    exact absurd h (by simp)

theorem remove_block_success_shape (s : Schedule) (i : Int)
    (h : (s.remove_block i).2 = true) :
    (s.remove_block i).1 =
      Schedule._update_metrics { s with time_blocks := s.time_blocks.eraseIdx i.toNat } := by
  unfold Schedule.remove_block at h ⊢
  by_cases hc : 0 ≤ i ∧ i < s.time_blocks.length
  · rw [if_pos hc]
  · rw [if_neg hc] at h
    exact absurd h (by simp)

/-- **C5.** After every successful mutation (add or remove), the cached
metrics equal their defining formulas (study minutes, break minutes,
efficiency = study/total or 0 when the day has no blocks), so the cache is
not observably stale; consequently, for blocks with positive duration the
efficiency ratio lies in [0, 1], and recomputation on an empty day yields
efficiency 0. -/
theorem C5_metrics_fresh :
    (∀ (s : Schedule) (b : TimeBlock),
      (s.add_block b).2 = true → MetricsFresh (s.add_block b).1) ∧
    (∀ (s : Schedule) (i : Int),
      (s.remove_block i).2 = true → MetricsFresh (s.remove_block i).1) ∧
    (∀ (s : Schedule) (b : TimeBlock),
      (s.add_block b).2 = true →
      (∀ bl ∈ (s.add_block b).1.time_blocks, bl.start_time < bl.end_time) →
      0 ≤ (s.add_block b).1.efficiency_score ∧ (s.add_block b).1.efficiency_score ≤ 1) ∧
    (∀ (s : Schedule) (i : Int),
      (s.remove_block i).2 = true →
      (∀ bl ∈ (s.remove_block i).1.time_blocks, bl.start_time < bl.end_time) →
      0 ≤ (s.remove_block i).1.efficiency_score ∧ (s.remove_block i).1.efficiency_score ≤ 1) ∧
    (∀ s : Schedule, s.time_blocks = [] → s._update_metrics.efficiency_score = 0) := by
  refine ⟨?_, ?_, ?_, ?_, ?_⟩
  · intro s b h
    rw [add_block_success_shape s b h]
    exact update_metrics_fresh _
  · intro s i h
    rw [remove_block_success_shape s i h]
    exact update_metrics_fresh _
  · intro s b h hv
    refine metricsFresh_eff_bounds _ ?_ hv
    rw [add_block_success_shape s b h]
    exact update_metrics_fresh _
  · intro s i h hv
    refine metricsFresh_eff_bounds _ ?_ hv
    rw [remove_block_success_shape s i h]
    exact update_metrics_fresh _
  · intro s hempty
    unfold Schedule._update_metrics
    simp [hempty, total_minutes]

/-- Concrete witness for C5: adding a study block to an empty schedule
succeeds and leaves fresh, in-range metrics. -/
theorem C5_metrics_fresh_witness :
    ((Schedule.mk 0 [] 0 0 0).add_block wBlock).2 = true ∧
    MetricsFresh ((Schedule.mk 0 [] 0 0 0).add_block wBlock).1 ∧
    (0 ≤ ((Schedule.mk 0 [] 0 0 0).add_block wBlock).1.efficiency_score ∧
      ((Schedule.mk 0 [] 0 0 0).add_block wBlock).1.efficiency_score ≤ 1) := by
  have h : ((Schedule.mk 0 [] 0 0 0).add_block wBlock).2 = true := by decide
  refine ⟨h, C5_metrics_fresh.1 _ _ h, C5_metrics_fresh.2.2.1 _ _ h ?_⟩
  decide

/-! ### Claim C6: urgency score -/

/-- Spec-side restatement of the urgency formula (spec section 4.1), written
from the claim's words, to compare against `Assignment.urgency_score`:
0 with no due date; 10.0 when days-until-due is 0; otherwise
priority weight times the time multiplier, with days-until-due the floored
day difference clamped to at least 0. -/
def urgency_formula (a : Assignment) (now : Int) : ℚ :=
  match a.due_date with
  | none => 0
  | some due =>
    let days : Int := max 0 ((due - now) / 1440)
    if days = 0 then 10
    else
      let weight : ℚ :=
        match a.priority with
        | .low => 1
        | .medium => 2
        | .high => 3
        | .urgent => 4
      let mult : ℚ :=
        if days ≤ 3 then 3
        else if days ≤ 7 then 2
        else if days ≤ 14 then 1.5
        else 1
      weight * mult

/-- **C6.** The urgency score is 0 with no due date, 10.0 when days-until-due
is 0, and otherwise priority weight (low..urgent mapped to 1..4) times the
step time multiplier (3.0 for at most 3 days, 2.0 for at most 7, 1.5 for at
most 14, else 1.0), with days-until-due the floor of the day difference
clamped to at least 0; in addition `days_until_due` is exactly that clamped
floor. -/
theorem C6_urgency_score :
    ∀ (a : Assignment) (now : Int),
      a.urgency_score now = urgency_formula a now ∧
      a.days_until_due now = (a.due_date.map fun due => max 0 ((due - now) / 1440)) := by
  intro a now
  constructor
  · cases hd : a.due_date with
    | none =>
      simp only [Assignment.urgency_score, urgency_formula, hd]
      norm_num
    | some due =>
      simp only [Assignment.urgency_score, Assignment.days_until_due, urgency_formula, hd]
      by_cases h0 : max 0 ((due - now) / 1440) = 0
      · rw [if_pos h0, if_pos h0]
        norm_num
      · rw [if_neg h0, if_neg h0]
        cases a.priority <;>
          (simp only [Assignment.priority_scores]; split_ifs <;> norm_num)
  · cases hd : a.due_date <;> simp [Assignment.days_until_due, hd]

/-! ### Claim C7: priority ranking -/

theorem sort_key_le_iff (now : Int) (a b : Assignment) :
    SmartScheduler._sort_key_le now a b = true ↔
      (b.urgency_score now < a.urgency_score now ∨
        (a.urgency_score now = b.urgency_score now ∧
          SmartScheduler._priority_order b.priority ≤
            SmartScheduler._priority_order a.priority)) := by
  simp [SmartScheduler._sort_key_le]

theorem sort_key_le_trans (now : Int) (a b c : Assignment)
    (hab : SmartScheduler._sort_key_le now a b = true)
    (hbc : SmartScheduler._sort_key_le now b c = true) :
    SmartScheduler._sort_key_le now a c = true := by
  rw [sort_key_le_iff] at hab hbc ⊢
  rcases hab with h1 | ⟨h1, h1'⟩
  · rcases hbc with h2 | ⟨h2, h2'⟩
    · exact Or.inl (h2.trans h1)
    · exact Or.inl (h2 ▸ h1)
  · rcases hbc with h2 | ⟨h2, h2'⟩
    · exact Or.inl (h1 ▸ h2)
    · exact Or.inr ⟨h1.trans h2, h2'.trans h1'⟩

theorem sort_key_le_total (now : Int) (a b : Assignment) :
    (SmartScheduler._sort_key_le now a b || SmartScheduler._sort_key_le now b a) = true := by
  rw [Bool.or_eq_true, sort_key_le_iff, sort_key_le_iff]
  rcases lt_trichotomy (a.urgency_score now) (b.urgency_score now) with h | h | h
  · exact Or.inr (Or.inl h)
  · rcases le_total (SmartScheduler._priority_order b.priority)
      (SmartScheduler._priority_order a.priority) with hp | hp
    · exact Or.inl (Or.inr ⟨h, hp⟩)
    · exact Or.inr (Or.inr ⟨h.symm, hp⟩)
  · exact Or.inl (Or.inl h)

/-- **C7.** `_sort_assignments_by_priority` permutes its input into a
deterministic total order: descending urgency score, ties by descending
priority level; and the sort is stable — two tasks with identical urgency
score and identical priority level keep their input order. -/
theorem C7_priority_ranking :
    ∀ (now : Int) (l : List Assignment),
      (SmartScheduler._sort_assignments_by_priority now l).Perm l ∧
      (SmartScheduler._sort_assignments_by_priority now l).Pairwise
        (fun a b => b.urgency_score now < a.urgency_score now ∨
          (a.urgency_score now = b.urgency_score now ∧
            SmartScheduler._priority_order b.priority ≤
              SmartScheduler._priority_order a.priority)) ∧
      (∀ a b : Assignment,
        a.urgency_score now = b.urgency_score now → a.priority = b.priority →
        [a, b].Sublist l →
        [a, b].Sublist (SmartScheduler._sort_assignments_by_priority now l)) := by
  intro now l
  refine ⟨List.mergeSort_perm l _, ?_, ?_⟩
  · have h := @List.sorted_mergeSort Assignment (SmartScheduler._sort_key_le now)
      (sort_key_le_trans now) (sort_key_le_total now) l
    exact h.imp fun hab => (sort_key_le_iff now _ _).1 hab
  · intro a b hu hp hsub
    refine List.pair_sublist_mergeSort (sort_key_le_trans now) (sort_key_le_total now)
      ?_ hsub
    rw [sort_key_le_iff]
    exact Or.inr ⟨hu, by rw [hp]⟩

def wTaskA : Assignment :=
  { id := 1, name := "a", course_id := 1, course_name := "c",
    due_date := some (5 * 1440), priority := .high }

def wTaskB : Assignment :=
  { id := 2, name := "b", course_id := 1, course_name := "c",
    due_date := some (5 * 1440), priority := .high }

/-- Concrete witness for C7: two equal-key tasks keep their input order. -/
theorem C7_priority_ranking_witness :
    wTaskA.urgency_score 0 = wTaskB.urgency_score 0 ∧
    wTaskA.priority = wTaskB.priority ∧
    [wTaskA, wTaskB].Sublist
      (SmartScheduler._sort_assignments_by_priority 0 [wTaskA, wTaskB]) := by
  have hu : wTaskA.urgency_score 0 = wTaskB.urgency_score 0 := rfl
  have hp : wTaskA.priority = wTaskB.priority := rfl
  exact ⟨hu, hp, (C7_priority_ranking 0 [wTaskA, wTaskB]).2.2 wTaskA wTaskB hu hp
    (List.Sublist.refl _)⟩

/-! ### Claim C4: skipping completed and past-due tasks -/

theorem foldl_if_filter {α β : Type} (p : α → Bool) (g : β → α → β) :
    ∀ (l : List α) (init : β),
      l.foldl (fun acc x => if p x then g acc x else acc) init =
        (l.filter p).foldl g init := by
  intro l
  induction l with
  | nil => intro init; rfl
  | cons x xs ih =>
    intro init
    rw [List.filter_cons]
    by_cases hp : p x = true
    · rw [if_pos hp]
      simp only [List.foldl_cons, if_pos hp]
      exact ih (g init x)
    · rw [if_neg hp]
      simp only [List.foldl_cons, if_neg hp]
      exact ih init

theorem can_schedule_of_completed (a : Assignment) (date : Int)
    (h : a.is_completed = true) :
    SmartScheduler._can_schedule_assignment a date = false := by
  simp [SmartScheduler._can_schedule_assignment, h]

theorem not_completed_of_can_schedule (a : Assignment) (date : Int)
    (h : SmartScheduler._can_schedule_assignment a date = true) :
    (!a.is_completed) = true := by
  unfold SmartScheduler._can_schedule_assignment at h
  cases hc : a.is_completed
  · rfl
  · rw [hc] at h
    simp at h

theorem can_schedule_of_due_before (a : Assignment) (date due : Int)
    (h : a.due_date = some due) (hlt : due / 1440 < date / 1440) :
    SmartScheduler._can_schedule_assignment a date = false := by
  unfold SmartScheduler._can_schedule_assignment
  cases hc : a.is_completed
  · simp [h, hlt]
  · simp

theorem schedule_day_skips_ineligible (c : SchedulingConstraints) (s : Schedule)
    (tasks : List Assignment) (date : Int) :
    SmartScheduler._schedule_assignments_for_day c s tasks date =
      SmartScheduler._schedule_assignments_for_day c s
        (tasks.filter fun a => SmartScheduler._can_schedule_assignment a date) date := by
  set p : Assignment → Bool := fun a => !a.is_completed with hp
  set q : Assignment → Bool := fun a => SmartScheduler._can_schedule_assignment a date with hq
  have hpq : ∀ a : Assignment, (p a && q a) = q a := by
    intro a
    cases hqa : q a
    · rw [Bool.and_false]
    · rw [Bool.and_true]
      exact not_completed_of_can_schedule a date hqa
  have h1 : (tasks.filter q).filter p = tasks.filter q := by
    rw [List.filter_filter]
    exact List.filter_congr fun a _ => hpq a
  have h2 : (tasks.filter p).filter q = tasks.filter q := by
    rw [List.filter_filter]
    refine List.filter_congr fun a _ => ?_
    cases hqa : q a
    · rw [Bool.false_and]
    · rw [Bool.true_and]
      exact not_completed_of_can_schedule a date hqa
  unfold SmartScheduler._schedule_assignments_for_day
  rw [h1]
  by_cases hA : (tasks.filter p).isEmpty
  · rw [if_pos hA]
    have hF : tasks.filter q = [] := by
      rw [← h2, List.isEmpty_iff.1 hA]
      rfl
    rw [if_pos (by rw [hF]; rfl)]
  · rw [if_neg hA]
    by_cases hS : (s.get_available_slots c.min_study_session c.start_time c.end_time).isEmpty
    · rw [if_pos hS]
      by_cases hF : (tasks.filter q).isEmpty
      · rw [if_pos hF]
      · rw [if_neg hF, if_pos hS]
    · rw [if_neg hS]
      have hfold : ∀ l : List Assignment,
          l.foldl (fun (acc : Schedule × List (Int × Int)) assignment =>
            if SmartScheduler._can_schedule_assignment assignment date then
              SmartScheduler._schedule_single_assignment acc.1 assignment acc.2
            else acc)
            (s, s.get_available_slots c.min_study_session c.start_time c.end_time) =
          (l.filter q).foldl (fun (acc : Schedule × List (Int × Int)) assignment =>
            SmartScheduler._schedule_single_assignment acc.1 assignment acc.2)
            (s, s.get_available_slots c.min_study_session c.start_time c.end_time) :=
        fun l => foldl_if_filter q _ l _
      by_cases hF : (tasks.filter q).isEmpty
      · rw [if_pos hF]
        rw [hfold, h2, List.isEmpty_iff.1 hF]
        rfl
      · rw [if_neg hF, if_neg hS]
        rw [hfold, hfold, h2]
        have h3 : (tasks.filter q).filter q = tasks.filter q := by
          rw [List.filter_filter]
          exact List.filter_congr fun a _ => Bool.and_self _
        rw [h3]

/-- **C4.** The per-day Task Placer never places a completed task nor a task
whose due date falls strictly before the target day: such tasks fail the
eligibility check, and the whole per-day placement result is unchanged by
removing them from the task list (they are skipped with no error and leave
the container unaffected). -/
theorem C4_skip_completed_and_past_due :
    (∀ (a : Assignment) (date : Int), a.is_completed = true →
      SmartScheduler._can_schedule_assignment a date = false) ∧
    (∀ (a : Assignment) (date due : Int), a.due_date = some due →
      due / 1440 < date / 1440 →
      SmartScheduler._can_schedule_assignment a date = false) ∧
    (∀ (c : SchedulingConstraints) (s : Schedule) (tasks : List Assignment) (date : Int),
      SmartScheduler._schedule_assignments_for_day c s tasks date =
        SmartScheduler._schedule_assignments_for_day c s
          (tasks.filter fun a => SmartScheduler._can_schedule_assignment a date) date) :=
  ⟨can_schedule_of_completed, can_schedule_of_due_before, schedule_day_skips_ineligible⟩

def wDoneTask : Assignment :=
  { id := 3, name := "done", course_id := 1, course_name := "c", is_completed := true }

def wPastTask : Assignment :=
  { id := 4, name := "past", course_id := 1, course_name := "c",
    due_date := some 600 }

/-- Concrete witness for C4: a completed task and a task due the previous
day are both rejected by the eligibility check on day 1. -/
theorem C4_skip_completed_and_past_due_witness :
    wDoneTask.is_completed = true ∧
    SmartScheduler._can_schedule_assignment wDoneTask 1500 = false ∧
    wPastTask.due_date = some 600 ∧ (600 : Int) / 1440 < 1500 / 1440 ∧
    SmartScheduler._can_schedule_assignment wPastTask 1500 = false := by
  refine ⟨rfl, C4_skip_completed_and_past_due.1 wDoneTask 1500 rfl, rfl, by decide,
    C4_skip_completed_and_past_due.2.1 wPastTask 1500 600 rfl (by decide)⟩

/-! ### Claims C2 and C10: single-task placement -/

/-- Characterization of the best-slot search loop: starting from a running
best `best` with score `score`, either no fitting slot beats `score` and the
accumulator is returned unchanged, or the returned slot is the first fitting
slot attaining the maximum score among fitting slots (strictly above every
earlier fitting slot's score and the initial `score`). -/
theorem find_best_slot_spec (need : Int) :
    ∀ (slots : List (Int × Int)) (best : Option (Int × Int)) (score : ℚ),
      (SmartScheduler._find_best_slot need slots best score = (best, score) ∧
        ∀ s ∈ slots, s.2 - s.1 ≥ need →
          SmartScheduler._total_slot_score need s ≤ score) ∨
      (∃ l₁ r l₂, slots = l₁ ++ r :: l₂ ∧
        SmartScheduler._find_best_slot need slots best score =
          (some r, SmartScheduler._total_slot_score need r) ∧
        r.2 - r.1 ≥ need ∧ SmartScheduler._total_slot_score need r > score ∧
        (∀ s ∈ l₁, s.2 - s.1 ≥ need →
          SmartScheduler._total_slot_score need s <
            SmartScheduler._total_slot_score need r) ∧
        (∀ s ∈ slots, s.2 - s.1 ≥ need →
          SmartScheduler._total_slot_score need s ≤
            SmartScheduler._total_slot_score need r)) := by
  intro slots
  induction slots with
  | nil =>
    intro best score
    left
    exact ⟨rfl, by simp⟩
  | cons s rest ih =>
    intro best score
    by_cases hc : s.2 - s.1 ≥ need
    · by_cases hgt : SmartScheduler._total_slot_score need s > score
      · have hstep : SmartScheduler._find_best_slot need (s :: rest) best score =
            SmartScheduler._find_best_slot need rest (some s)
              (SmartScheduler._total_slot_score need s) := by
          simp only [SmartScheduler._find_best_slot]
          rw [if_pos hc, if_pos hgt]
        rcases ih (some s) (SmartScheduler._total_slot_score need s) with
          ⟨heq, hall⟩ | ⟨l₁, r, l₂, hsplit, heq, hcand, hgt2, hlt, hle⟩
        · right
          refine ⟨[], s, rest, rfl, ?_, hc, hgt, ?_, ?_⟩
          · rw [hstep, heq]
          · intro t ht
            simp at ht
          · intro t ht hcand_t
            rcases List.mem_cons.1 ht with rfl | ht'
            · exact le_refl _
            · exact hall t ht' hcand_t
        · right
          refine ⟨s :: l₁, r, l₂, by rw [hsplit, List.cons_append], ?_, hcand,
            lt_trans hgt hgt2, ?_, ?_⟩
          · rw [hstep, heq]
          · intro t ht hcand_t
            rcases List.mem_cons.1 ht with rfl | ht'
            · exact hgt2
            · exact hlt t ht' hcand_t
          · intro t ht hcand_t
            rcases List.mem_cons.1 ht with rfl | ht'
            · exact le_of_lt hgt2
            · exact hle t (hsplit ▸ ht') hcand_t
      · have hstep : SmartScheduler._find_best_slot need (s :: rest) best score =
            SmartScheduler._find_best_slot need rest best score := by
          simp only [SmartScheduler._find_best_slot]
          rw [if_pos hc, if_neg hgt]
        have hsle : SmartScheduler._total_slot_score need s ≤ score := not_lt.1 hgt
        rcases ih best score with
          ⟨heq, hall⟩ | ⟨l₁, r, l₂, hsplit, heq, hcand, hgt2, hlt, hle⟩
        · left
          refine ⟨by rw [hstep, heq], ?_⟩
          intro t ht hcand_t
          rcases List.mem_cons.1 ht with rfl | ht'
          · exact hsle
          · exact hall t ht' hcand_t
        · right
          refine ⟨s :: l₁, r, l₂, by rw [hsplit, List.cons_append], ?_, hcand, hgt2, ?_, ?_⟩
          · rw [hstep, heq]
          · intro t ht hcand_t
            rcases List.mem_cons.1 ht with rfl | ht'
            · exact lt_of_le_of_lt hsle hgt2
            · exact hlt t ht' hcand_t
          · intro t ht hcand_t
            rcases List.mem_cons.1 ht with rfl | ht'
            · exact le_of_lt (lt_of_le_of_lt hsle hgt2)
            · exact hle t (hsplit ▸ ht') hcand_t
    · have hstep : SmartScheduler._find_best_slot need (s :: rest) best score =
          SmartScheduler._find_best_slot need rest best score := by
        simp only [SmartScheduler._find_best_slot]
        rw [if_neg hc]
      rcases ih best score with
        ⟨heq, hall⟩ | ⟨l₁, r, l₂, hsplit, heq, hcand, hgt2, hlt, hle⟩
      · left
        refine ⟨by rw [hstep, heq], ?_⟩
        intro t ht hcand_t
        rcases List.mem_cons.1 ht with rfl | ht'
        · exact absurd hcand_t hc
        · exact hall t ht' hcand_t
      · right
        refine ⟨s :: l₁, r, l₂, by rw [hsplit, List.cons_append], ?_, hcand, hgt2, ?_, ?_⟩
        · rw [hstep, heq]
        · intro t ht hcand_t
          rcases List.mem_cons.1 ht with rfl | ht'
          · exact absurd hcand_t hc
          · exact hlt t ht' hcand_t
        · intro t ht hcand_t
          rcases List.mem_cons.1 ht with rfl | ht'
          · exact absurd hcand_t hc
          · exact hle t (hsplit ▸ ht') hcand_t

def exSched : Schedule := { date := 0 }

def exTask90 : Assignment :=
  { id := 10, name := "hw", course_id := 1, course_name := "c" }

def exTask30 : Assignment :=
  { id := 11, name := "quiz", course_id := 1, course_name := "c",
    estimated_duration := 30 }

/-- **C2 counterexample.** A task needing 30 minutes and a single fitting
free slot (09:00, 22:00): the slot's duration (780) is at least 30, yet the
placer commits nothing and leaves schedule and slot list unchanged, because
the slot's score, (1 - 750/30) * 0.6 + 1.0 * 0.4 = -14, never exceeds the
initial best score of -1.  The claim's "selects the maximum-scoring
candidate ... places a study block" fails here. -/
theorem C2_counterexample :
    exTask30.total_time_needed = 30 ∧
    ((1320 : Int) - 540 ≥ exTask30.total_time_needed) ∧
    SmartScheduler._total_slot_score exTask30.total_time_needed (540, 1320) = -14 ∧
    SmartScheduler._schedule_single_assignment exSched exTask30 [(540, 1320)] =
      (exSched, [(540, 1320)]) := by
  have hneed : exTask30.total_time_needed = 30 := by decide
  have hts : SmartScheduler._total_slot_score exTask30.total_time_needed (540, 1320) = -14 := by
    rw [hneed]
    norm_num [SmartScheduler._total_slot_score,
      SmartScheduler._calculate_time_preference_score]
  have hfind : SmartScheduler._find_best_slot exTask30.total_time_needed
      [((540 : Int), (1320 : Int))] none (-1) = (none, -1) := by
    simp only [SmartScheduler._find_best_slot]
    rw [if_pos (by rw [hneed]; norm_num), if_neg (by rw [hts]; norm_num)]
  refine ⟨hneed, by rw [hneed]; norm_num, hts, ?_⟩
  simp only [SmartScheduler._schedule_single_assignment, hfind]

/-- **C2 (amended).** For every task with positive total time needed and
every free-slot list, the placer considers exactly the slots whose duration
is at least the task's total time needed, scoring each as
0.6 * fitScore + 0.4 * timeScore; it selects the first candidate attaining
the maximum score *provided that score exceeds -1* (the running best starts
at -1, so a task all of whose fitting slots score at most -1 is not placed
at all); on selection it builds a study block spanning
[slotStart, slotStart + timeNeeded) tagged with the task's type and
priority, and on a successful add removes the entire selected slot from the
free-slot list (on a refused add the slot list is kept).  In particular a
task needing 90 minutes with free slots [(09:00,11:00), (14:00,15:00)] is
placed as a study block (09:00,10:30) and the whole first slot is
consumed. -/
theorem C2_single_placement :
    (∀ (schedule : Schedule) (a : Assignment) (slots : List (Int × Int)),
      0 < a.total_time_needed →
      (((SmartScheduler._find_best_slot a.total_time_needed slots none (-1)).1 = none ∧
        SmartScheduler._schedule_single_assignment schedule a slots = (schedule, slots) ∧
        ∀ s ∈ slots, s.2 - s.1 ≥ a.total_time_needed →
          SmartScheduler._total_slot_score a.total_time_needed s ≤ -1) ∨
      (∃ r l₁ l₂,
        (SmartScheduler._find_best_slot a.total_time_needed slots none (-1)).1 = some r ∧
        slots = l₁ ++ r :: l₂ ∧
        r.2 - r.1 ≥ a.total_time_needed ∧
        SmartScheduler._total_slot_score a.total_time_needed r > -1 ∧
        (∀ s ∈ l₁, s.2 - s.1 ≥ a.total_time_needed →
          SmartScheduler._total_slot_score a.total_time_needed s <
            SmartScheduler._total_slot_score a.total_time_needed r) ∧
        (∀ s ∈ slots, s.2 - s.1 ≥ a.total_time_needed →
          SmartScheduler._total_slot_score a.total_time_needed s ≤
            SmartScheduler._total_slot_score a.total_time_needed r) ∧
        (SmartScheduler._study_block a r.1).start_time = r.1 ∧
        (SmartScheduler._study_block a r.1).end_time = r.1 + a.total_time_needed ∧
        (SmartScheduler._study_block a r.1).block_type = BlockType.study ∧
        (SmartScheduler._study_block a r.1).tags =
          [a.assignment_type.val, a.priority.val] ∧
        SmartScheduler._schedule_single_assignment schedule a slots =
          (if (schedule.add_block (SmartScheduler._study_block a r.1)).2 then
            ((schedule.add_block (SmartScheduler._study_block a r.1)).1, slots.erase r)
          else ((schedule.add_block (SmartScheduler._study_block a r.1)).1, slots))))) ∧
    (SmartScheduler._schedule_single_assignment exSched exTask90
        [(540, 660), (840, 900)]).1.time_blocks =
      [SmartScheduler._study_block exTask90 540] ∧
    (SmartScheduler._schedule_single_assignment exSched exTask90
        [(540, 660), (840, 900)]).2 = [(840, 900)] ∧
    (SmartScheduler._study_block exTask90 540).start_time = 540 ∧
    (SmartScheduler._study_block exTask90 540).end_time = 630 := by
  constructor
  · intro schedule a slots _
    rcases find_best_slot_spec a.total_time_needed slots none (-1) with
      ⟨heq, hall⟩ | ⟨l₁, r, l₂, hsplit, heq, hcand, hgt, hlt, hle⟩
    · left
      refine ⟨by rw [heq], ?_, hall⟩
      simp only [SmartScheduler._schedule_single_assignment, heq]
    · right
      refine ⟨r, l₁, l₂, by rw [heq], hsplit, hcand, hgt, hlt, hle, rfl, rfl, rfl, rfl, ?_⟩
      simp only [SmartScheduler._schedule_single_assignment, heq]
  have hneed : exTask90.total_time_needed = 90 := by decide
  have hts1 : SmartScheduler._total_slot_score exTask90.total_time_needed (540, 660) = 4/5 := by
    rw [hneed]
    norm_num [SmartScheduler._total_slot_score,
      SmartScheduler._calculate_time_preference_score]
  have hfind : SmartScheduler._find_best_slot exTask90.total_time_needed
      [((540 : Int), (660 : Int)), (840, 900)] none (-1) = (some (540, 660), 4/5) := by
    simp only [SmartScheduler._find_best_slot]
    rw [if_pos (by rw [hneed]; norm_num), if_pos (by rw [hts1]; norm_num),
      if_neg (by rw [hneed]; norm_num), hts1]
  have hplace : SmartScheduler._schedule_single_assignment exSched exTask90
      [(540, 660), (840, 900)] =
      ((exSched.add_block (SmartScheduler._study_block exTask90 540)).1, [(840, 900)]) := by
    simp only [SmartScheduler._schedule_single_assignment, hfind]
    have hadd : (exSched.add_block (SmartScheduler._study_block exTask90 540)).2 = true := by
      decide
    rw [if_pos hadd]
    have herase : [((540 : Int), (660 : Int)), (840, 900)].erase (540, 660) = [(840, 900)] := by
      decide
    rw [herase]
  rw [hplace]
  refine ⟨by decide, rfl, by decide, by decide⟩

/-- Concrete witness for C2's amended theorem: at the example input the
hypothesis holds, and the selection lands in one of the two characterized
outcomes. -/
theorem C2_single_placement_witness :
    0 < exTask90.total_time_needed ∧
    ((SmartScheduler._find_best_slot exTask90.total_time_needed
        [((540 : Int), (660 : Int)), (840, 900)] none (-1)).1 = none ∨
      ∃ r : Int × Int,
        (SmartScheduler._find_best_slot exTask90.total_time_needed
          [((540 : Int), (660 : Int)), (840, 900)] none (-1)).1 = some r ∧
        r.2 - r.1 ≥ exTask90.total_time_needed) := by
  have h := C2_single_placement.1 exSched exTask90 [(540, 660), (840, 900)] (by decide)
  refine ⟨by decide, ?_⟩
  rcases h with ⟨hn, _, _⟩ | ⟨r, l₁, l₂, hr, _, hcand, _⟩
  · exact Or.inl hn
  · exact Or.inr ⟨r, hr, hcand⟩

theorem schedule_single_shape (schedule : Schedule) (a : Assignment)
    (slots : List (Int × Int)) :
    (SmartScheduler._schedule_single_assignment schedule a slots).1.time_blocks =
        schedule.time_blocks ∨
      ∃ st : Int,
        (SmartScheduler._schedule_single_assignment schedule a slots).1.time_blocks =
          schedule.time_blocks ++ [SmartScheduler._study_block a st] := by
  unfold SmartScheduler._schedule_single_assignment
  dsimp only
  split
  · exact Or.inl rfl
  · next best_slot _ =>
    split
    · rcases add_block_time_blocks schedule (SmartScheduler._study_block a best_slot.1)
        with h | h
      · exact Or.inl h
      · exact Or.inr ⟨best_slot.1, h⟩
    · rcases add_block_time_blocks schedule (SmartScheduler._study_block a best_slot.1)
        with h | h
      · exact Or.inl h
      · exact Or.inr ⟨best_slot.1, h⟩

theorem schedule_single_no_fit (schedule : Schedule) (a : Assignment)
    (slots : List (Int × Int))
    (h : ∀ s ∈ slots, s.2 - s.1 < a.total_time_needed) :
    SmartScheduler._schedule_single_assignment schedule a slots = (schedule, slots) := by
  rcases find_best_slot_spec a.total_time_needed slots none (-1) with
    ⟨heq, _⟩ | ⟨l₁, r, l₂, hsplit, heq, hcand, _⟩
  · simp only [SmartScheduler._schedule_single_assignment, heq]
  · exfalso
    have hr : r ∈ slots := by
      rw [hsplit]
      exact List.mem_append_right _ (List.mem_cons_self _ _)
    exact absurd hcand (not_le.2 (h r hr))

/-- **C10.** Every study block the placer commits spans exactly the task's
total time needed (effort plus preparation): the committed block is always
`_study_block a st` for some start `st`, of duration `total_time_needed`, at
most one block is added per task (never split across slots), a task fitting
no free slot leaves schedule and slot list untouched, and the per-day
placement is unaffected by `max_study_session` and `buffer_time` (only the
minimum session length and the daily window are consulted). -/
theorem C10_study_block_duration :
    (∀ (schedule : Schedule) (a : Assignment) (slots : List (Int × Int)),
      (SmartScheduler._schedule_single_assignment schedule a slots).1.time_blocks =
          schedule.time_blocks ∨
        ∃ st : Int,
          (SmartScheduler._schedule_single_assignment schedule a slots).1.time_blocks =
            schedule.time_blocks ++ [SmartScheduler._study_block a st]) ∧
    (∀ (a : Assignment) (st : Int),
      (SmartScheduler._study_block a st).duration_minutes = a.total_time_needed ∧
      (SmartScheduler._study_block a st).block_type = BlockType.study) ∧
    (∀ (schedule : Schedule) (a : Assignment) (slots : List (Int × Int)),
      (∀ s ∈ slots, s.2 - s.1 < a.total_time_needed) →
      SmartScheduler._schedule_single_assignment schedule a slots = (schedule, slots)) ∧
    (∀ (c₁ c₂ : SchedulingConstraints),
      c₁.min_study_session = c₂.min_study_session → c₁.start_time = c₂.start_time →
      c₁.end_time = c₂.end_time →
      ∀ (schedule : Schedule) (tasks : List Assignment) (date : Int),
        SmartScheduler._schedule_assignments_for_day c₁ schedule tasks date =
          SmartScheduler._schedule_assignments_for_day c₂ schedule tasks date) := by
  refine ⟨schedule_single_shape, ?_, schedule_single_no_fit, ?_⟩
  · intro a st
    constructor
    · simp only [TimeBlock.duration_minutes, SmartScheduler._study_block]
      ring
    · rfl
  · intro c₁ c₂ h1 h2 h3 schedule tasks date
    unfold SmartScheduler._schedule_assignments_for_day
    rw [h1, h2, h3]

/-- Concrete witness for C10: a 90-minute task with only a 60-minute slot is
not placed, and a constraints value differing only in `max_study_session`
and `buffer_time` gives the identical day schedule. -/
theorem C10_study_block_duration_witness :
    (∀ s ∈ [((840 : Int), (900 : Int))], s.2 - s.1 < exTask90.total_time_needed) ∧
    SmartScheduler._schedule_single_assignment exSched exTask90 [(840, 900)] =
      (exSched, [(840, 900)]) ∧
    SmartScheduler._schedule_assignments_for_day {} exSched [exTask90] 0 =
      SmartScheduler._schedule_assignments_for_day
        { max_study_session := 999, buffer_time := 0 } exSched [exTask90] 0 := by
  have h : ∀ s ∈ [((840 : Int), (900 : Int))], s.2 - s.1 < exTask90.total_time_needed := by
    decide
  exact ⟨h, C10_study_block_duration.2.2.1 exSched exTask90 [(840, 900)] h,
    C10_study_block_duration.2.2.2 {} { max_study_session := 999, buffer_time := 0 }
      rfl rfl rfl exSched [exTask90] 0⟩

/-! ### Claim C3: the slot finder -/

/-- Spec-side slot walk (spec section 4.3), whose cursor "never moves
backward": it advances to `max cursor block.end`.  For comparison with
`Schedule.slots_loop`, which assigns `cursor := block.end`
unconditionally. -/
def spec_slot_walk (duration_minutes end_dt : Int) : Int → List TimeBlock → List (Int × Int)
  | cursor, [] =>
      if end_dt - cursor ≥ duration_minutes then [(cursor, end_dt)] else []
  | cursor, block :: rest =>
      (if block.start_time - cursor ≥ duration_minutes then
        [(cursor, block.start_time)]
      else []) ++ spec_slot_walk duration_minutes end_dt (max cursor block.end_time) rest

/-- `get_available_slots` with the spec-side walk substituted. -/
def spec_get_available_slots (s : Schedule) (duration_minutes : Int)
    (start_time end_time : Int) : List (Int × Int) :=
  let start_dt := s.date / 1440 * 1440 + start_time
  let end_dt := s.date / 1440 * 1440 + end_time
  let sorted_blocks :=
    s.time_blocks.mergeSort fun a b => decide (a.start_time ≤ b.start_time)
  spec_slot_walk duration_minutes end_dt start_dt sorted_blocks

theorem slots_loop_min_duration (d e : Int) :
    ∀ (blocks : List TimeBlock) (cur : Int),
      ∀ p ∈ Schedule.slots_loop d e cur blocks, p.2 - p.1 ≥ d := by
  intro blocks
  induction blocks with
  | nil =>
    intro cur p hp
    simp only [Schedule.slots_loop] at hp
    split at hp
    · rw [List.mem_singleton] at hp
      subst hp
      assumption
    · simp at hp
  | cons b rest ih =>
    intro cur p hp
    simp only [Schedule.slots_loop, List.mem_append] at hp
    rcases hp with hp | hp
    · split at hp
      · rw [List.mem_singleton] at hp
        subst hp
        assumption
      · simp at hp
    · exact ih b.end_time p hp

theorem slots_loop_eq_spec (d e : Int) :
    ∀ (blocks : List TimeBlock) (cur : Int),
      blocks.Pairwise (fun a b => a.start_time ≤ b.start_time) →
      blocks.Pairwise (fun a b => a.overlaps_with b = false) →
      (∀ b ∈ blocks, b.start_time < b.end_time) →
      (∀ b ∈ blocks, cur ≤ b.end_time) →
      Schedule.slots_loop d e cur blocks = spec_slot_walk d e cur blocks := by
  intro blocks
  induction blocks with
  | nil => intro cur _ _ _ _; rfl
  | cons b rest ih =>
    intro cur hsort hov hval hcur
    have hcb : cur ≤ b.end_time := hcur b (List.mem_cons_self _ _)
    have hmax : max cur b.end_time = b.end_time := max_eq_right hcb
    simp only [Schedule.slots_loop, spec_slot_walk, hmax]
    congr 1
    apply ih
    · exact (List.pairwise_cons.1 hsort).2
    · exact (List.pairwise_cons.1 hov).2
    · exact fun b' hb' => hval b' (List.mem_cons_of_mem _ hb')
    · intro b' hb'
      have hs : b.start_time ≤ b'.start_time := (List.pairwise_cons.1 hsort).1 b' hb'
      have ho : b.overlaps_with b' = false := (List.pairwise_cons.1 hov).1 b' hb'
      have hv' : b'.start_time < b'.end_time := hval b' (List.mem_cons_of_mem _ hb')
      have ho' : ¬(b.start_time < b'.end_time ∧ b'.start_time < b.end_time) := by
        intro hcon
        rw [(overlaps_with_iff b b').2 hcon] at ho
        exact Bool.noConfusion ho
      rcases not_and_or.1 ho' with h | h
      · push_neg at h
        omega
      · push_neg at h
        omega

theorem spec_slot_walk_chron (d e : Int) :
    ∀ (blocks : List TimeBlock) (cur : Int),
      (∀ b ∈ blocks, b.start_time < b.end_time) →
      ((∀ p ∈ spec_slot_walk d e cur blocks, cur ≤ p.1) ∧
        (spec_slot_walk d e cur blocks).Pairwise fun p q => p.2 ≤ q.1) := by
  intro blocks
  induction blocks with
  | nil =>
    intro cur _
    constructor
    · intro p hp
      simp only [spec_slot_walk] at hp
      split at hp
      · rw [List.mem_singleton] at hp
        subst hp
        exact le_refl _
      · simp at hp
    · simp only [spec_slot_walk]
      split
      · exact List.pairwise_singleton _ _
      · exact List.Pairwise.nil
  | cons b rest ih =>
    intro cur hval
    have hvb : b.start_time < b.end_time := hval b (List.mem_cons_self _ _)
    have ihr := ih (max cur b.end_time)
      (fun b' hb' => hval b' (List.mem_cons_of_mem _ hb'))
    constructor
    · intro p hp
      simp only [spec_slot_walk, List.mem_append] at hp
      rcases hp with hp | hp
      · split at hp
        · rw [List.mem_singleton] at hp
          subst hp
          exact le_refl _
        · simp at hp
      · exact le_trans (le_max_left _ _) (ihr.1 p hp)
    · simp only [spec_slot_walk]
      rw [List.pairwise_append]
      refine ⟨?_, ihr.2, ?_⟩
      · split
        · exact List.pairwise_singleton _ _
        · exact List.Pairwise.nil
      · intro p hp q hq
        split at hp
        · rw [List.mem_singleton] at hp
          subst hp
          have h1 : max cur b.end_time ≤ q.1 := ihr.1 q hq
          have h2 : b.end_time ≤ max cur b.end_time := le_max_right _ _
          show b.start_time ≤ q.1
          omega
        · simp at hp

def cSched3 : Schedule :=
  { date := 0
    time_blocks := [{ start_time := 360, end_time := 420,
                      block_type := BlockType.personal, title := "Gym" }] }

/-- **C3 counterexample.** A container holding one block (06:00, 07:00) that
ends before the window start 09:00: the code sets the cursor to the block's
end, moving it from 540 back to 420, and returns the slot (420, 1320) —
starting before the window — while the claimed never-backward walk returns
(540, 1320).  The claim's "advances the cursor to that block's end without
ever moving it earlier" fails. -/
theorem C3_counterexample :
    cSched3.get_available_slots 30 540 1320 = [(420, 1320)] ∧
    spec_get_available_slots cSched3 30 540 1320 = [(540, 1320)] ∧
    (420 : Int) < 540 ∧
    cSched3.get_available_slots 30 540 1320 ≠
      spec_get_available_slots cSched3 30 540 1320 := by
  have hms : cSched3.time_blocks.mergeSort
      (fun a b => decide (a.start_time ≤ b.start_time)) = cSched3.time_blocks :=
    List.mergeSort_of_sorted (List.pairwise_singleton _ _)
  have h1 : cSched3.get_available_slots 30 540 1320 = [(420, 1320)] := by
    unfold Schedule.get_available_slots
    rw [hms]
    decide
  have h2 : spec_get_available_slots cSched3 30 540 1320 = [(540, 1320)] := by
    unfold spec_get_available_slots
    rw [hms]
    decide
  refine ⟨h1, h2, by norm_num, ?_⟩
  rw [h1, h2]
  decide

/-- **C3 (amended).** The Slot Finder sorts blocks by start time, walks them
with a cursor initialized to the window start, emits each cursor-to-start
gap of length at least the minimum duration, and sets the cursor to the
block's end *unconditionally* — which can move the cursor earlier when a
block ends before the window start (or before a previous block's end).
Provided the container's blocks are pairwise non-overlapping, have positive
durations, and none ends before the window start, the cursor never moves
backward (the code walk coincides with the never-backward walk) and the
returned slots are chronological.  Every returned slot, in every case, has
length at least the minimum duration, and the empty container with window
[09:00, 22:00) and minimum duration 30 yields exactly (09:00, 22:00). -/
theorem C3_slot_finder :
    (∀ (s : Schedule) (dur stT enT : Int),
      NoOverlap s →
      (∀ b ∈ s.time_blocks, b.start_time < b.end_time) →
      (∀ b ∈ s.time_blocks, s.date / 1440 * 1440 + stT ≤ b.end_time) →
      s.get_available_slots dur stT enT = spec_get_available_slots s dur stT enT ∧
      (s.get_available_slots dur stT enT).Pairwise (fun p q => p.2 ≤ q.1)) ∧
    (∀ (s : Schedule) (dur stT enT : Int),
      ∀ p ∈ s.get_available_slots dur stT enT, p.2 - p.1 ≥ dur) ∧
    (Schedule.mk 0 [] 0 0 0).get_available_slots 30 540 1320 = [(540, 1320)] := by
  refine ⟨?_, ?_, ?_⟩
  · intro s dur stT enT hno hval hcur
    set le : TimeBlock → TimeBlock → Bool :=
      fun a b => decide (a.start_time ≤ b.start_time) with hle
    have htrans : ∀ a b c : TimeBlock, le a b = true → le b c = true → le a c = true := by
      intro a b c hab hbc
      simp only [hle, decide_eq_true_eq] at hab hbc ⊢
      exact le_trans hab hbc
    have htotal : ∀ a b : TimeBlock, (le a b || le b a) = true := by
      intro a b
      simp only [hle, Bool.or_eq_true, decide_eq_true_eq]
      exact le_total _ _
    have hperm : (s.time_blocks.mergeSort le).Perm s.time_blocks :=
      List.mergeSort_perm s.time_blocks le
    have hsort : (s.time_blocks.mergeSort le).Pairwise
        (fun a b => a.start_time ≤ b.start_time) := by
      have := List.sorted_mergeSort htrans htotal s.time_blocks
      exact this.imp fun hab => by
        simpa only [hle, decide_eq_true_eq] using hab
    have hov : (s.time_blocks.mergeSort le).Pairwise
        (fun a b => a.overlaps_with b = false) := by
      refine (hperm.pairwise_iff ?_).2 hno
      intro a b hab
      rw [overlaps_with_comm]
      exact hab
    have hval' : ∀ b ∈ s.time_blocks.mergeSort le, b.start_time < b.end_time :=
      fun b hb => hval b (hperm.mem_iff.1 hb)
    have hcur' : ∀ b ∈ s.time_blocks.mergeSort le,
        s.date / 1440 * 1440 + stT ≤ b.end_time :=
      fun b hb => hcur b (hperm.mem_iff.1 hb)
    have heq := slots_loop_eq_spec dur (s.date / 1440 * 1440 + enT)
      (s.time_blocks.mergeSort le) (s.date / 1440 * 1440 + stT) hsort hov hval' hcur'
    constructor
    · unfold Schedule.get_available_slots spec_get_available_slots
      exact heq
    · unfold Schedule.get_available_slots
      rw [heq]
      exact (spec_slot_walk_chron dur _ _ _ hval').2
  · intro s dur stT enT p hp
    unfold Schedule.get_available_slots at hp
    exact slots_loop_min_duration dur _ _ _ p hp
  · have hms : (Schedule.mk 0 [] 0 0 0).time_blocks.mergeSort
        (fun a b => decide (a.start_time ≤ b.start_time)) = [] :=
      List.mergeSort_of_sorted List.Pairwise.nil
    unfold Schedule.get_available_slots
    rw [hms]
    decide

/-- Concrete witness for C3's amended theorem: a schedule with one in-window
class block; the code walk agrees with the never-backward walk. -/
theorem C3_slot_finder_witness :
    NoOverlap wSched ∧
    wSched.get_available_slots 30 540 1320 = spec_get_available_slots wSched 30 540 1320 ∧
    (wSched.get_available_slots 30 540 1320).Pairwise (fun p q => p.2 ≤ q.1) := by
  have hno : NoOverlap wSched := by
    unfold NoOverlap wSched
    decide
  have h := C3_slot_finder.1 wSched 30 540 1320 hno (by decide) (by decide)
  exact ⟨hno, h.1, h.2⟩

/-! ### Claims C8 and C9: break insertion and fixed-block installation -/

theorem foldl_addBlock_shape {α : Type} (P : α → TimeBlock → Prop)
    (f : Schedule → α → Schedule)
    (hf : ∀ s x, f s x = s ∨ ∃ blk, P x blk ∧ f s x = (s.add_block blk).1) :
    ∀ (l : List α) (s : Schedule),
      ∃ added : List TimeBlock,
        (l.foldl f s).time_blocks = s.time_blocks ++ added ∧
        ∀ blk ∈ added, ∃ x ∈ l, P x blk := by
  intro l
  induction l with
  | nil =>
    intro s
    exact ⟨[], by simp, by simp⟩
  | cons x xs ih =>
    intro s
    rcases ih (f s x) with ⟨added, ha, hmem⟩
    rcases hf s x with h | ⟨blk, hP, h⟩
    · refine ⟨added, ?_, ?_⟩
      · rw [List.foldl_cons, ha, h]
      · intro b hb
        rcases hmem b hb with ⟨y, hy, hPy⟩
        exact ⟨y, List.mem_cons_of_mem _ hy, hPy⟩
    · rcases add_block_time_blocks s blk with hb | hb
      · refine ⟨added, ?_, ?_⟩
        · rw [List.foldl_cons, ha, h, hb]
        · intro b hb'
          rcases hmem b hb' with ⟨y, hy, hPy⟩
          exact ⟨y, List.mem_cons_of_mem _ hy, hPy⟩
      · refine ⟨blk :: added, ?_, ?_⟩
        · rw [List.foldl_cons, ha, h, hb, List.append_assoc, List.singleton_append]
        · intro b hb'
          rcases List.mem_cons.1 hb' with rfl | hb'
          · exact ⟨x, List.mem_cons_self _ _, hP⟩
          · rcases hmem b hb' with ⟨y, hy, hPy⟩
            exact ⟨y, List.mem_cons_of_mem _ hy, hPy⟩

def sb1 : TimeBlock :=
  { start_time := 540, end_time := 600, block_type := BlockType.study, title := "S1" }

def sbW : TimeBlock :=
  { start_time := 600, end_time := 630, block_type := BlockType.work, title := "W" }

def sb2 : TimeBlock :=
  { start_time := 660, end_time := 720, block_type := BlockType.study, title := "S2" }

def cs8 : Schedule := { date := 0, time_blocks := [sb1, sbW, sb2] }

/-- **C8 counterexample.** Two study blocks (09:00,10:00) and (11:00,12:00)
with a work block (10:00,10:30) between them: the adjacent study pair's gap
is 60 >= 15, yet no break is inserted, because the candidate break
(10:00,10:15) overlaps the work block and the container refuses it.  The
claim's "inserts exactly one break block" for every adequate gap fails. -/
theorem C8_counterexample :
    cs8.get_study_blocks = [sb1, sb2] ∧
    sb2.start_time - sb1.end_time ≥ (15 : Int) ∧
    (SmartScheduler._add_breaks_and_optimize {} cs8).time_blocks = [sb1, sbW, sb2] := by
  have hstudy : cs8.get_study_blocks = [sb1, sb2] := by decide
  have hms : [sb1, sb2].mergeSort (fun a b => decide (a.start_time ≤ b.start_time)) =
      [sb1, sb2] :=
    List.mergeSort_of_sorted (by decide)
  refine ⟨hstudy, by decide, ?_⟩
  simp only [SmartScheduler._add_breaks_and_optimize, hstudy, hms]
  decide

def eb1 : TimeBlock :=
  { start_time := 540, end_time := 630, block_type := BlockType.study, title := "E1" }

def eb2 : TimeBlock :=
  { start_time := 660, end_time := 720, block_type := BlockType.study, title := "E2" }

def eSched8 : Schedule := { date := 0, time_blocks := [eb1, eb2] }

/-- **C8 (amended).** After placement the Break Inserter sorts the day's
study blocks by start time and, for every adjacent pair whose gap is at
least the configured break duration, *attempts* to insert one break block of
exactly the configured duration starting at the first block's end — the
container may refuse the attempt when the break would overlap an existing
block, in which case no break is added for that gap.  Every block it adds is
a break block of exactly the configured duration starting at the end of some
adjacent study pair with adequate gap (so no break is added at a gap smaller
than the configured duration); nothing is added when the day has fewer than
two study blocks; and on study blocks (09:00,10:30), (11:00,12:00) with
break duration 15 exactly the single break (10:30,10:45) is added. -/
theorem C8_break_insertion :
    (∀ (c : SchedulingConstraints) (s : Schedule),
      ∃ added : List TimeBlock,
        (SmartScheduler._add_breaks_and_optimize c s).time_blocks =
          s.time_blocks ++ added ∧
        ∀ blk ∈ added,
          blk.block_type = BlockType.break_ ∧
          blk.duration_minutes = c.break_duration ∧
          ∃ pr ∈ ((s.get_study_blocks.mergeSort
              fun a b => decide (a.start_time ≤ b.start_time)).zip
            (s.get_study_blocks.mergeSort
              fun a b => decide (a.start_time ≤ b.start_time)).tail),
            blk = SmartScheduler._break_block c pr.1.end_time ∧
            pr.2.start_time - pr.1.end_time ≥ c.break_duration) ∧
    (∀ (c : SchedulingConstraints) (s : Schedule),
      s.get_study_blocks.length < 2 →
      SmartScheduler._add_breaks_and_optimize c s = s) ∧
    (∀ (c : SchedulingConstraints) (st : Int),
      (SmartScheduler._break_block c st).start_time = st ∧
      (SmartScheduler._break_block c st).end_time = st + c.break_duration ∧
      (SmartScheduler._break_block c st).block_type = BlockType.break_) ∧
    (SmartScheduler._add_breaks_and_optimize {} eSched8).time_blocks =
      eSched8.time_blocks ++ [SmartScheduler._break_block {} 630] ∧
    (SmartScheduler._break_block ({} : SchedulingConstraints) 630).start_time = 630 ∧
    (SmartScheduler._break_block ({} : SchedulingConstraints) 630).end_time = 645 := by
  refine ⟨?_, ?_, ?_, ?_, rfl, by decide⟩
  · intro c s
    unfold SmartScheduler._add_breaks_and_optimize
    by_cases hlen : s.get_study_blocks.length < 2
    · rw [if_pos hlen]
      exact ⟨[], by simp, by simp⟩
    · rw [if_neg hlen]
      exact foldl_addBlock_shape
        (fun pr blk => blk.block_type = BlockType.break_ ∧
          blk.duration_minutes = c.break_duration ∧
          blk = SmartScheduler._break_block c pr.1.end_time ∧
          pr.2.start_time - pr.1.end_time ≥ c.break_duration)
        _
        (by
          intro s' pr
          by_cases hgap : pr.2.start_time - pr.1.end_time ≥ c.break_duration
          · right
            refine ⟨SmartScheduler._break_block c pr.1.end_time,
              ⟨rfl, ?_, rfl, hgap⟩, by rw [if_pos hgap]⟩
            simp only [TimeBlock.duration_minutes, SmartScheduler._break_block]
            ring
          · left
            rw [if_neg hgap])
        _ s
      |>.imp fun added h =>
        ⟨h.1, fun blk hblk =>
          (h.2 blk hblk).elim fun pr hpr =>
            ⟨hpr.2.1, hpr.2.2.1, pr, hpr.1, hpr.2.2.2.1, hpr.2.2.2.2⟩⟩
  · intro c s hlen
    unfold SmartScheduler._add_breaks_and_optimize
    rw [if_pos hlen]
  · intro c st
    exact ⟨rfl, rfl, rfl⟩
  · have hstudy : eSched8.get_study_blocks = [eb1, eb2] := by decide
    have hms : [eb1, eb2].mergeSort (fun a b => decide (a.start_time ≤ b.start_time)) =
        [eb1, eb2] :=
      List.mergeSort_of_sorted (by decide)
    simp only [SmartScheduler._add_breaks_and_optimize, hstudy, hms]
    decide

/-- Concrete witness for C8's amended theorem: a day with a single study
block gets no breaks. -/
theorem C8_break_insertion_witness :
    eSched8.get_study_blocks.length < 2 ∨
    (SmartScheduler._add_breaks_and_optimize {}
        { date := 0, time_blocks := [eb1] } =
      { date := 0, time_blocks := [eb1] } ∧
      ({ date := 0, time_blocks := [eb1] } : Schedule).get_study_blocks.length < 2) :=
  Or.inr ⟨C8_break_insertion.2.1 {} { date := 0, time_blocks := [eb1] } (by decide),
    by decide⟩

theorem add_block_refused_shape (s : Schedule) (b : TimeBlock)
    (h : (s.add_block b).2 = false) : (s.add_block b).1 = s := by
  unfold Schedule.add_block at h ⊢
  by_cases hc : s._can_add_block b = true
  · rw [if_pos hc] at h
    exact absurd h (by simp)
  · rw [if_neg hc]

theorem foldl_if_filter_prop {α β : Type} (p : α → Prop) [DecidablePred p]
    (g : β → α → β) :
    ∀ (l : List α) (init : β),
      l.foldl (fun acc x => if p x then g acc x else acc) init =
        (l.filter fun x => decide (p x)).foldl g init := by
  intro l
  induction l with
  | nil => intro init; rfl
  | cons x xs ih =>
    intro init
    rw [List.filter_cons]
    by_cases hp : p x
    · rw [if_pos (decide_eq_true hp)]
      simp only [List.foldl_cons, if_pos hp]
      exact ih (g init x)
    · rw [if_neg (by simpa using hp)]
      simp only [List.foldl_cons, if_neg hp]
      exact ih init

def cb9A : TimeBlock :=
  { start_time := 540, end_time := 600, block_type := BlockType.class_,
    title := "Algebra", is_fixed := false }

def cb9B : TimeBlock :=
  { start_time := 570, end_time := 630, block_type := BlockType.class_,
    title := "Biology", is_fixed := true }

/-- **C9 counterexample.** Two same-day class blocks that overlap, the first
carrying `is_fixed = false`: the Installer installs the first block with its
fixed flag still false (it never sets the flag on class blocks), and the
overlapping second block is silently dropped — the Installer discards
`add_block`'s rejection signal, so the result is indistinguishable from
installing the first block alone and no configuration problem is surfaced. -/
theorem C9_counterexample :
    cb9A.overlaps_with cb9B = true ∧
    (SmartScheduler._add_fixed_blocks exSched [cb9A, cb9B] [] 0).time_blocks = [cb9A] ∧
    cb9A.is_fixed = false ∧
    SmartScheduler._add_fixed_blocks exSched [cb9A, cb9B] [] 0 =
      SmartScheduler._add_fixed_blocks exSched [cb9A] [] 0 := by
  have h2 : SmartScheduler._add_fixed_blocks exSched [cb9A, cb9B] [] 0 =
      SmartScheduler._add_fixed_blocks exSched [cb9A] [] 0 := by
    unfold SmartScheduler._add_fixed_blocks
    simp only [List.foldl_cons, List.foldl_nil]
    rw [if_pos (by decide), if_pos (by decide)]
    exact add_block_refused_shape _ _ (by decide)
  refine ⟨by decide, ?_, rfl, h2⟩
  rw [h2]
  unfold SmartScheduler._add_fixed_blocks
  simp only [List.foldl_cons, List.foldl_nil]
  rw [if_pos (by decide)]
  decide

/-- **C9 (amended).** For every target date the Fixed-Block Installer
attempts, in input order (classes first, then shifts), exactly the
class-schedule blocks and work shifts whose date matches the target:
class blocks are installed unchanged (keeping whatever fixed flag they
carry), and each matching shift becomes a work block with the fixed flag set
and its title synthesized from the shift's role.  A block that would overlap
an already-installed block is refused by the container via a rejection
signal rather than an exception, but the Installer *discards* that signal —
the refused block is silently dropped and nothing is surfaced upward. -/
theorem C9_fixed_block_installer :
    (∀ w : WorkShift,
      (SmartScheduler._work_block w).is_fixed = true ∧
      (SmartScheduler._work_block w).block_type = BlockType.work ∧
      (SmartScheduler._work_block w).title = "Work - " ++ w.role ∧
      (SmartScheduler._work_block w).start_time = w.start_time ∧
      (SmartScheduler._work_block w).end_time = w.end_time) ∧
    (∀ (s : Schedule) (cls : List TimeBlock) (shifts : List WorkShift) (d : Int),
      SmartScheduler._add_fixed_blocks s cls shifts d =
        SmartScheduler._add_fixed_blocks s
          (cls.filter fun b => decide (b.start_time / 1440 = d / 1440))
          (shifts.filter fun w => decide (w.date / 1440 = d / 1440)) d) ∧
    (∀ (s : Schedule) (cls : List TimeBlock) (shifts : List WorkShift) (d : Int),
      ∃ addedC addedW : List TimeBlock,
        (SmartScheduler._add_fixed_blocks s cls shifts d).time_blocks =
          s.time_blocks ++ addedC ++ addedW ∧
        (∀ b ∈ addedC, b ∈ cls ∧ b.start_time / 1440 = d / 1440) ∧
        (∀ b ∈ addedW, ∃ w ∈ shifts, w.date / 1440 = d / 1440 ∧
          b = SmartScheduler._work_block w)) := by
  refine ⟨fun w => ⟨rfl, rfl, rfl, rfl, rfl⟩, ?_, ?_⟩
  · intro s cls shifts d
    have hC : ∀ (l : List TimeBlock) (init : Schedule),
        l.foldl (fun s' class_block =>
          if class_block.start_time / 1440 = d / 1440 then (s'.add_block class_block).1
          else s') init =
        (l.filter fun b => decide (b.start_time / 1440 = d / 1440)).foldl
          (fun s' b => (s'.add_block b).1) init :=
      fun l init => foldl_if_filter_prop _ _ l init
    have hW : ∀ (l : List WorkShift) (init : Schedule),
        l.foldl (fun s' work_shift =>
          if work_shift.date / 1440 = d / 1440 then
            (s'.add_block (SmartScheduler._work_block work_shift)).1
          else s') init =
        (l.filter fun w => decide (w.date / 1440 = d / 1440)).foldl
          (fun s' w => (s'.add_block (SmartScheduler._work_block w)).1) init :=
      fun l init => foldl_if_filter_prop _ _ l init
    have hc : (cls.filter fun b => decide (b.start_time / 1440 = d / 1440)).filter
        (fun b => decide (b.start_time / 1440 = d / 1440)) =
        cls.filter fun b => decide (b.start_time / 1440 = d / 1440) := by
      rw [List.filter_filter]
      exact List.filter_congr fun a _ => Bool.and_self _
    have hw : (shifts.filter fun w => decide (w.date / 1440 = d / 1440)).filter
        (fun w => decide (w.date / 1440 = d / 1440)) =
        shifts.filter fun w => decide (w.date / 1440 = d / 1440) := by
      rw [List.filter_filter]
      exact List.filter_congr fun a _ => Bool.and_self _
    unfold SmartScheduler._add_fixed_blocks
    dsimp only
    rw [hW, hW, hC, hC, hc, hw]
  · intro s cls shifts d
    rcases foldl_addBlock_shape
      (fun (x : TimeBlock) blk => x.start_time / 1440 = d / 1440 ∧ blk = x)
      (fun s' class_block =>
        if class_block.start_time / 1440 = d / 1440 then (s'.add_block class_block).1
        else s')
      (by
        intro s' x
        dsimp only
        by_cases hd : x.start_time / 1440 = d / 1440
        · right
          exact ⟨x, ⟨hd, rfl⟩, by rw [if_pos hd]⟩
        · left
          rw [if_neg hd])
      cls s with ⟨a1, h1, hm1⟩
    rcases foldl_addBlock_shape
      (fun (w : WorkShift) blk => w.date / 1440 = d / 1440 ∧
        blk = SmartScheduler._work_block w)
      (fun s' work_shift =>
        if work_shift.date / 1440 = d / 1440 then
          (s'.add_block (SmartScheduler._work_block work_shift)).1
        else s')
      (by
        intro s' w
        dsimp only
        by_cases hd : w.date / 1440 = d / 1440
        · right
          exact ⟨SmartScheduler._work_block w, ⟨hd, rfl⟩, by rw [if_pos hd]⟩
        · left
          rw [if_neg hd])
      shifts
      (cls.foldl
        (fun s' class_block =>
          if class_block.start_time / 1440 = d / 1440 then (s'.add_block class_block).1
          else s')
        s) with ⟨a2, h2, hm2⟩
    refine ⟨a1, a2, ?_, ?_, ?_⟩
    · unfold SmartScheduler._add_fixed_blocks
      rw [h2, h1, List.append_assoc]
    · intro b hb
      rcases hm1 b hb with ⟨x, hx, hdx, rfl⟩
      exact ⟨hx, hdx⟩
    · intro b hb
      rcases hm2 b hb with ⟨w, hw, hdw, hbw⟩
      exact ⟨w, hw, hdw, hbw⟩

def wsh9 : WorkShift :=
  { id := "s1", start_time := 840, end_time := 1080, role := "Barista" }

/-- Concrete witness for C9's amended theorem: the synthesized work block for
a concrete shift carries the fixed flag and the synthesized title. -/
theorem C9_fixed_block_installer_witness :
    (SmartScheduler._work_block wsh9).is_fixed = true ∧
    (SmartScheduler._work_block wsh9).title = "Work - Barista" := by
  have h := C9_fixed_block_installer.1 wsh9
  exact ⟨h.1, h.2.2.1⟩

end SchedApp
